import Mathlib

/-!
Verification of the hybrid retrieval and ranking pipeline of the
arxiv-rag repository: a shallow embedding of
`src/storage/opensearch_client.py` (reciprocal-rank fusion),
`src/retrieval/hybrid_search.py` (filter construction, embedding dispatch),
`src/processing/embeddings.py`, `src/retrieval/reranker.py`,
`src/retrieval/retrieval_pipeline.py` and
`src/retrieval/context_builder.py`, together with proofs about fusion
scores and ordering, duplicate handling, error propagation and
token-budgeted context assembly.

Conventions:
* Fragment (chunk) identifiers are `Nat`.
* Python `float` scores are modelled as `ℚ`.  Every score arising in the
  fusion claims is a sum of one or two reciprocals of small integers; for
  these, order and equality of exact rationals agree with those of the
  IEEE doubles computed by the code (in particular
  `1.0/122 + 1.0/122 == 1.0/61` holds exactly for doubles as well,
  because halving and doubling are exact float operations).
* Python text is modelled as `List Char` (`Str` below); the built-in
  `String` functions are avoided because their byte-position recursion
  does not evaluate inside the kernel.
* A Python dict (insertion ordered) is modelled as an association list in
  insertion order; `sorted(..., reverse=True)` is modelled by stable
  insertion sort, which computes Python's stable descending sort.
* Fallible calls to external collaborators are modelled with
  `Except String`; an uncaught Python exception is an `Except.error`
  propagating through `bind`.
-/

set_option maxRecDepth 100000

namespace ArxivRag

/-- Exact rational addition computed through `mkRat` (the library
`Rat.add` is `@[irreducible]`, which blocks `decide`-style evaluation;
this definition evaluates in the kernel and is proved equal to `· + ·`
below). -/
def ratAdd (a b : ℚ) : ℚ := mkRat (a.num * b.den + b.num * a.den) (a.den * b.den)

/-! ### Text model (`str` as `List Char`) -/

/-- Python `str`, modelled as its character sequence. -/
abbrev Str := List Char

/-- The characters of a Lean string literal. -/
def chars (s : String) : Str := s.data

/-- Helper for `pySplit`: `acc` is the current (reversed) run of
non-whitespace characters. -/
def pySplitAux : Str → Str → List Str
  | acc, [] => if acc.isEmpty then [] else [acc.reverse]
  | acc, c :: cs =>
    if c.isWhitespace then
      if acc.isEmpty then pySplitAux [] cs else acc.reverse :: pySplitAux [] cs
    else pySplitAux (c :: acc) cs

/-- Python `text.split()` (no argument): the maximal runs of
non-whitespace characters; leading/trailing/repeated whitespace produces
no empty tokens. -/
def pySplit (s : Str) : List Str := pySplitAux [] s

/-- Token count `len(text.split())`: the whitespace-token count used by
`ContextBuilder.build`. -/
def tokenCount (s : Str) : ℕ := (pySplit s).length

/-- Python `text.strip()`: drop leading and trailing whitespace. -/
def pyStrip (s : Str) : Str :=
  ((s.dropWhile Char.isWhitespace).reverse.dropWhile Char.isWhitespace).reverse

/-- Decimal digits of `n`, with fuel for structural recursion;
models Python's `f"{n}"` rendering of a non-negative integer. -/
def natToCharsAux : ℕ → ℕ → List Char
  | 0, _ => []
  | fuel + 1, n =>
    if n < 10 then [Nat.digitChar n]
    else natToCharsAux fuel (n / 10) ++ [Nat.digitChar (n % 10)]

/-- Decimal rendering of `n` as characters. -/
def natToChars (n : ℕ) : List Char := natToCharsAux (n + 1) n

/-! ### Reciprocal-rank fusion (`OpenSearchClient.hybrid_search`) -/

/-- The fixed RRF constant `rrf_k = 60` of `OpenSearchClient.hybrid_search`. -/
def rrf_k : ℕ := 60

/-- The keys of an insertion-ordered dict modelled as an association list. -/
def keys (sc : List (ℕ × ℚ)) : List ℕ := sc.map Prod.fst

/-- One dict write `scores[doc_id] = scores.get(doc_id, 0.0) + c`:
an existing key keeps its insertion position and has `c` added to its
value; a new key is appended at the end. -/
def updateScore (sc : List (ℕ × ℚ)) (d : ℕ) (c : ℚ) : List (ℕ × ℚ) :=
  if d ∈ keys sc then
    sc.map (fun p => if p.1 = d then (p.1, ratAdd p.2 c) else p)
  else sc ++ [(d, c)]

/-- Dict read `scores.get(d)` on the association list (first matching key). -/
def lookupScore : List (ℕ × ℚ) → ℕ → Option ℚ
  | [], _ => none
  | p :: ps, d => if p.1 = d then some p.2 else lookupScore ps d

/-- The loop
`for rank, hit in enumerate(hits): scores[hit._id] += 1.0/(rrf_k + rank + 1)`
starting at rank `r`. -/
def addHitsFrom : ℕ → List (ℕ × ℚ) → List ℕ → List (ℕ × ℚ)
  | _, sc, [] => sc
  | r, sc, h :: hs =>
    addHitsFrom (r + 1) (updateScore sc h (mkRat 1 (rrf_k + r + 1))) hs

/-- The fused score dict of `OpenSearchClient.hybrid_search`: the BM25
keyword hits are folded in first (ranks from 0), then the kNN vector
hits (ranks from 0), into the same insertion-ordered dict. -/
def rrf_scores (bm25_hits knn_hits : List ℕ) : List (ℕ × ℚ) :=
  addHitsFrom 0 (addHitsFrom 0 [] bm25_hits) knn_hits

/-- Descending comparison by a rational key; `descRel f a b` means `a`
may come before `b`. -/
def descRel (f : α → ℚ) : α → α → Prop := fun a b => f b ≤ f a

instance (f : α → ℚ) : DecidableRel (descRel f) :=
  fun a b => inferInstanceAs (Decidable (f b ≤ f a))

instance (f : α → ℚ) : IsTotal α (descRel f) :=
  ⟨fun a b => le_total (f b) (f a)⟩

instance (f : α → ℚ) : IsTrans α (descRel f) :=
  ⟨fun _ _ _ h1 h2 => le_trans h2 h1⟩

/-- Python's `sorted(xs, key=f, reverse=True)`: the stable sort,
descending by the key `f`; stable insertion sort computes exactly this
list. -/
def sortDescBy (f : α → ℚ) (l : List α) : List α :=
  l.insertionSort (descRel f)

/-- The sort `sorted(scores, key=lambda d: scores[d], reverse=True)`: every
scored id, best first, ties in dict insertion order. -/
def ranked_list (bm25_hits knn_hits : List ℕ) : List (ℕ × ℚ) :=
  sortDescBy Prod.snd (rrf_scores bm25_hits knn_hits)

/-- The truncation `ranked_ids = sorted(...)[:top_k]`, each ranked id paired with
its fused score, exactly as in the result dicts
(`"chunk_id": doc_id, "score": scores[doc_id]`) returned by
`OpenSearchClient.hybrid_search`; the remaining `_source` payload fields
are pass-through enrichment. -/
def hybrid_search_fused (bm25_hits knn_hits : List ℕ) (top_k : ℕ) :
    List (ℕ × ℚ) :=
  (ranked_list bm25_hits knn_hits).take top_k

/-- The fragment identifiers of the fused output, in output order. -/
def fusedIds (bm25_hits knn_hits : List ℕ) (top_k : ℕ) : List ℕ :=
  (hybrid_search_fused bm25_hits knn_hits top_k).map Prod.fst

/-- Models `OpenSearchClient.hybrid_search` with the two backend sub-queries as
fallible collaborators: the BM25 call runs first, then the kNN call;
an exception in either one propagates uncaught (there is no
`try`/`except` in the method), and only if both succeed are the hit
lists fused. -/
def hybrid_search_run (bm25_result knn_result : Except String (List ℕ))
    (top_k : ℕ) : Except String (List (ℕ × ℚ)) := do
  let bm25_hits ← bm25_result
  let knn_hits ← knn_result
  pure (hybrid_search_fused bm25_hits knn_hits top_k)

/-- Modelled from the spec: the total reciprocal-rank contribution of one
ranked list to identifier `d` — the sum of `1/(K + r + 1)` (with
`K = rrf_k = 60`) over the 0-based ranks `r`, counted from the first
argument, at which `d` occurs. -/
def contribFrom : ℕ → List ℕ → ℕ → ℚ
  | _, [], _ => 0
  | r, h :: hs, d =>
    (if h = d then (1 : ℚ) / ((rrf_k + r + 1 : ℕ) : ℚ) else 0) +
      contribFrom (r + 1) hs d

/-- Modelled from the spec: contribution of a whole list, ranks from 0. -/
def contribution (hits : List ℕ) (d : ℕ) : ℚ := contribFrom 0 hits d

/-- The first occurrence of each identifier, in first-seen order. -/
def firstSeen : List ℕ → List ℕ
  | [] => []
  | x :: xs => x :: (firstSeen xs).filter (fun y => decide (y ≠ x))

/-! ### Embedding generation (`EmbeddingGenerator.embed_text`) -/

/-- Models `EmbeddingGenerator.embed_text`: empty or whitespace-only text yields
a zero vector without calling the provider; long text is truncated to
32000 characters; and any provider failure is caught and also yields a
zero vector of the configured dimension. -/
def embed_text (dimension : ℕ) (provider : Str → Except String (List ℚ))
    (text : Str) : List ℚ :=
  if text.isEmpty ∨ pyStrip text = [] then List.replicate dimension 0
  else
    match provider (if 32000 < text.length then text.take 32000 else text) with
    | Except.ok embedding => embedding
    | Except.error _ => List.replicate dimension 0

/-- Models `HybridSearchEngine.search` seen from the embedding step: the query
embedding produced by `embed_text` is handed to the backend call
`os_client.hybrid_search` (abstracted as `backend`, with query text,
`top_k` and filters already fixed). -/
def engine_search (dimension : ℕ) (provider : Str → Except String (List ℚ))
    (backend : List ℚ → Except String (List (ℕ × ℚ))) (query : Str) :
    Except String (List (ℕ × ℚ)) :=
  backend (embed_text dimension provider query)

/-! ### Filter construction (`HybridSearchEngine.search` +
`OpenSearchClient.hybrid_search`) -/

/-- The optional `filters` dict built by `HybridSearchEngine.search`:
keys `"categories"` and `"date_from"`. Dates are modelled as integers
(`now - days` stands for `(datetime.now() - timedelta(days)).isoformat()`). -/
structure Filters where
  categories : Option (List Str) := none
  date_from : Option ℤ := none
deriving DecidableEq

/-- A backend-native filter clause of `OpenSearchClient.hybrid_search`. -/
inductive FilterClause where
  | terms (categories : List Str)
  | rangeFrom (date_from : ℤ)
deriving DecidableEq

/-- The filter-building part of `HybridSearchEngine.search`:
`if categories: ...` keeps the key only for a truthy (non-empty) list,
`if date_filter_days: ...` only for a truthy (non-zero) integer, and the
dict is passed as `filters if filters else None`. -/
def engine_filters (now : ℤ) (categories : Option (List Str))
    (date_filter_days : Option ℤ) : Option Filters :=
  let filters : Filters := {}
  let filters : Filters :=
    match categories with
    | some l => if l.isEmpty then filters else { filters with categories := some l }
    | none => filters
  let filters : Filters :=
    match date_filter_days with
    | some d => if d = 0 then filters else { filters with date_from := some (now - d) }
    | none => filters
  if filters = {} then none else some filters

/-- The `filter_clauses` list built at the top of
`OpenSearchClient.hybrid_search` from the optional `filters` dict. -/
def filter_clauses (filters : Option Filters) : List FilterClause :=
  match filters with
  | none => []
  | some f =>
    (match f.categories with
     | some c => [FilterClause.terms c]
     | none => []) ++
    (match f.date_from with
     | some d => [FilterClause.rangeFrom d]
     | none => [])

/-- The filter clauses ultimately applied to the backend queries for the
caller-supplied `categories` / `date_filter_days` arguments. -/
def clauses_for (now : ℤ) (categories : Option (List Str))
    (date_filter_days : Option ℤ) : List FilterClause :=
  filter_clauses (engine_filters now categories date_filter_days)

/-! ### Context assembly (`ContextBuilder.build`) -/

/-- A retrieved chunk dict as consumed by `ReRanker.rerank` and
`ContextBuilder.build`: `content` is always present (re-ranking reads
it unconditionally); the fields read via `.get(...)` are optional. -/
structure Chunk where
  content : Str
  arxiv_id : Option Str := none
  title : Option Str := none
  section_title : Option Str := none
  score : Option ℚ := none
  rerank_score : Option ℚ := none
deriving DecidableEq

/-- A citation record (`sources` entry) of `ContextBuilder.build`. -/
structure Source where
  paper_title : Str
  arxiv_id : Str
  arxiv_url : Str
  section_label : Str
  relevance_score : ℚ
  snippet : Str
deriving DecidableEq

/-- Python `round(x, 4)`: rounding to four decimal places.  (Python rounds
half-to-even; the two differ only at exact five-in-the-fifth-place
values, which no claim exercises.) -/
def round4 (q : ℚ) : ℚ := (round (q * 10000) : ℤ) / 10000

/-- One rendered context block
`f"[Source {i}] (Paper: {title} | arXiv: {arxiv_id} | Section: {section})\n{chunk_text}"`
with the defaults `"Untitled"` / `"unknown"` / `""` for missing fields. -/
def mkPart (i : ℕ) (c : Chunk) : Str :=
  chars "[Source " ++ natToChars i ++ chars "] (Paper: " ++
    c.title.getD (chars "Untitled") ++ chars " | arXiv: " ++
    c.arxiv_id.getD (chars "unknown") ++ chars " | Section: " ++
    c.section_title.getD [] ++ chars ")\n" ++ c.content

/-- The citation record appended for one included chunk. -/
def mkSource (c : Chunk) : Source :=
  { paper_title := c.title.getD (chars "Untitled")
    arxiv_id := c.arxiv_id.getD (chars "unknown")
    arxiv_url := chars "https://arxiv.org/abs/" ++ c.arxiv_id.getD (chars "unknown")
    section_label := c.section_title.getD []
    relevance_score := round4 (c.score.getD 0)
    snippet :=
      if 200 < c.content.length then c.content.take 200 ++ chars "..."
      else c.content }

/-- The `for i, chunk in enumerate(chunks, 1)` loop of
`ContextBuilder.build`: `i` is the 1-based marker counter, `total` the
running token total; the loop `break`s (returning nothing further) as
soon as adding the next chunk would exceed the budget. -/
def buildLoop (max_context_tokens : ℕ) :
    ℕ → ℕ → List Chunk → List Str × List Source
  | _, _, [] => ([], [])
  | i, total, c :: cs =>
    let chunk_tokens := tokenCount c.content
    if max_context_tokens < total + chunk_tokens then ([], [])
    else
      let rest := buildLoop max_context_tokens (i + 1) (total + chunk_tokens) cs
      (mkPart i c :: rest.1, mkSource c :: rest.2)

/-- Python `sep.join(parts)`. -/
def joinSep (sep : Str) : List Str → Str
  | [] => []
  | [x] => x
  | x :: y :: xs => x ++ sep ++ joinSep sep (y :: xs)

/-- Models `ContextBuilder.build`: empty input short-circuits to `("", [])`;
otherwise the included blocks are joined with `"\n\n---\n\n"` and
returned with the parallel citation list. -/
def build (max_context_tokens : ℕ) (chunks : List Chunk) :
    Str × List Source :=
  if chunks.isEmpty then ([], [])
  else
    let ps := buildLoop max_context_tokens 1 0 chunks
    (joinSep (chars "\n\n---\n\n") ps.1, ps.2)

/-- The list of rendered context blocks (the strings joined into the
context by `build`). -/
def renderedBlocks (max_context_tokens : ℕ) (chunks : List Chunk) :
    List Str :=
  (buildLoop max_context_tokens 1 0 chunks).1

/-- Total whitespace-token count of the chunk texts of a list. -/
def sumTokens (chunks : List Chunk) : ℕ :=
  (chunks.map (fun c => tokenCount c.content)).sum

/-! ### Re-ranking (`ReRanker.rerank`) and the pipeline
(`RetrievalPipeline.retrieve`) -/

/-- Models `ReRanker.rerank`: empty input returns `[]` without invoking the
model; otherwise the cross-encoder (`predict`, one batch call on all
`(query, content)` pairs) is invoked with no exception handling, its
scores are attached (`zip(..., strict=True)`), the results are sorted
descending by `rerank_score` (stable) and truncated to `top_n`. -/
def rerank (top_n : ℕ)
    (predict : List (Str × Str) → Except String (List ℚ))
    (query : Str) (search_results : List Chunk) :
    Except String (List Chunk) :=
  if search_results.isEmpty then Except.ok []
  else
    match predict (search_results.map fun r => (query, r.content)) with
    | Except.error e => Except.error e
    | Except.ok scores =>
      if scores.length = search_results.length then
        Except.ok
          ((sortDescBy (fun c => c.rerank_score.getD 0)
              ((search_results.zip scores).map
                (fun p => { p.1 with rerank_score := some p.2 }))).take top_n)
      else Except.error "zip strict length mismatch"

/-- The result dict of `RetrievalPipeline.retrieve` (the wall-clock
`retrieval_time_ms` field is not modelled). -/
structure RetrievalResult where
  context : Str
  sources : List Source
deriving DecidableEq

/-- Models `RetrievalPipeline.retrieve`: hybrid search, then re-ranking, then
context building, with no exception handling at any step — a failure of
any stage propagates to the caller. -/
def retrieve (search_engine : Str → ℕ → Except String (List Chunk))
    (top_n max_context_tokens : ℕ)
    (predict : List (Str × Str) → Except String (List ℚ))
    (query : Str) (top_k : ℕ) : Except String RetrievalResult := do
  let raw_results ← search_engine query top_k
  let reranked_results ← rerank top_n predict query raw_results
  let bc := build max_context_tokens reranked_results
  pure { context := bc.1, sources := bc.2 }

/-! ### Concrete inputs used by counterexamples and witnesses -/

/-- Keyword list of the tie counterexample: `f1 = 0` at rank 0, sixty
filler ids `100..159` at ranks 1–60, `f2 = 1` at rank 61. -/
def bmTie : List ℕ := 0 :: ((List.range 60).map (· + 100)) ++ [1]

/-- Vector list of the tie counterexample: filler ids `200..260` at
ranks 0–60, `f2 = 1` at rank 61. -/
def knnTie : List ℕ := ((List.range 61).map (· + 200)) ++ [1]

/-- Keyword list of the truncation counterexample: single-list id `500`
at rank 0, shared ids `300..362` at ranks 1–63. -/
def bmDrop : List ℕ := 500 :: (List.range 63).map (· + 300)

/-- Vector list of the truncation counterexample: single-list id `501`
at rank 0, shared ids `300..362` at ranks 1–63. -/
def knnDrop : List ℕ := 501 :: (List.range 63).map (· + 300)

/-- A chunk whose content has exactly three whitespace tokens. -/
def overflowChunk : Chunk := { content := chars "a b c" }

/-! ### Rational helper lemmas -/

theorem rat_num_eq (q : ℚ) : (q.num : ℚ) = q * q.den := by
  have h := Rat.num_div_den q
  have hd : (q.den : ℚ) ≠ 0 := by positivity
  calc (q.num : ℚ) = (q.num / q.den) * q.den := (div_mul_cancel₀ _ hd).symm
  _ = q * q.den := by rw [h]

theorem ratAdd_eq_add (a b : ℚ) : ratAdd a b = a + b := by
  rw [ratAdd, Rat.mkRat_eq_div]
  push_cast
  have ha : (a.den : ℚ) ≠ 0 := by positivity
  have hb : (b.den : ℚ) ≠ 0 := by positivity
  field_simp
  rw [rat_num_eq a, rat_num_eq b]
  ring

theorem mkRat_one_div (n : ℕ) : mkRat 1 n = 1 / (n : ℚ) := by
  rw [Rat.mkRat_eq_div]; norm_num

/-! ### Score-dict lemmas -/

theorem keys_cons (p : ℕ × ℚ) (ps : List (ℕ × ℚ)) :
    keys (p :: ps) = p.1 :: keys ps := rfl

theorem lookupScore_eq_none (sc : List (ℕ × ℚ)) (d : ℕ) :
    lookupScore sc d = none ↔ d ∉ keys sc := by
  induction sc with
  | nil => simp [lookupScore, keys]
  | cons p ps ih =>
    by_cases h : p.1 = d
    · simp [lookupScore, keys_cons, h]
    · rw [lookupScore, if_neg h, ih]
      simp only [keys_cons, List.mem_cons, not_or]
      exact ⟨fun hn => ⟨fun hd => h hd.symm, hn⟩, fun hn => hn.2⟩

theorem lookupScore_map_update (sc : List (ℕ × ℚ)) (d : ℕ) (c : ℚ) :
    lookupScore (sc.map (fun p => if p.1 = d then (p.1, ratAdd p.2 c) else p)) d
      = (lookupScore sc d).map (fun v => v + c) := by
  induction sc with
  | nil => rfl
  | cons p ps ih =>
    by_cases hp : p.1 = d
    · simp [lookupScore, hp, ratAdd_eq_add]
    · simp [lookupScore, hp, ih]

theorem lookupScore_map_update_ne (sc : List (ℕ × ℚ)) (d : ℕ) (c : ℚ)
    (j : ℕ) (h : j ≠ d) :
    lookupScore (sc.map (fun p => if p.1 = d then (p.1, ratAdd p.2 c) else p)) j
      = lookupScore sc j := by
  induction sc with
  | nil => rfl
  | cons p ps ih =>
    by_cases hp : p.1 = d
    · have hpj : p.1 ≠ j := by rw [hp]; exact (Ne.symm h)
      simp [lookupScore, hp, hpj, ih, Ne.symm h]
    · by_cases hj : p.1 = j <;> simp [lookupScore, hp, hj, ih, h]

theorem lookupScore_append (sc : List (ℕ × ℚ)) (d : ℕ) (c : ℚ) (j : ℕ) :
    lookupScore (sc ++ [(d, c)]) j =
      match lookupScore sc j with
      | some v => some v
      | none => if d = j then some c else none := by
  induction sc with
  | nil => simp [lookupScore]
  | cons p ps ih =>
    by_cases hp : p.1 = j <;> simp [lookupScore, hp, ih]

theorem lookupScore_update_self (sc : List (ℕ × ℚ)) (d : ℕ) (c : ℚ) :
    lookupScore (updateScore sc d c) d
      = some ((lookupScore sc d).getD 0 + c) := by
  unfold updateScore
  by_cases h : d ∈ keys sc
  · rw [if_pos h, lookupScore_map_update]
    obtain ⟨v, hv⟩ : ∃ v, lookupScore sc d = some v := by
      rcases ho : lookupScore sc d with _ | v
      · exact absurd ((lookupScore_eq_none sc d).mp ho) (by simpa using h)
      · exact ⟨v, rfl⟩
    rw [hv]; simp
  · rw [if_neg h, lookupScore_append, (lookupScore_eq_none sc d).mpr h]
    simp

theorem lookupScore_update_ne (sc : List (ℕ × ℚ)) (d : ℕ) (c : ℚ)
    (j : ℕ) (h : j ≠ d) :
    lookupScore (updateScore sc d c) j = lookupScore sc j := by
  unfold updateScore
  split
  · exact lookupScore_map_update_ne sc d c j h
  · rw [lookupScore_append]
    rcases ho : lookupScore sc j with _ | v
    · simp [Ne.symm h]
    · simp

theorem keys_updateScore (sc : List (ℕ × ℚ)) (d : ℕ) (c : ℚ) :
    keys (updateScore sc d c)
      = if d ∈ keys sc then keys sc else keys sc ++ [d] := by
  unfold updateScore
  split
  · show keys _ = keys sc
    unfold keys
    rw [List.map_map]
    apply List.map_congr_left
    intro p _
    by_cases hp : p.1 = d <;> simp [hp]
  · simp [keys]

theorem contribFrom_of_not_mem (hs : List ℕ) :
    ∀ (r : ℕ) (d : ℕ), d ∉ hs → contribFrom r hs d = 0 := by
  induction hs with
  | nil => intro r d _; rfl
  | cons h t ih =>
    intro r d hd
    have h1 : h ≠ d := fun he => hd (by simp [he])
    have h2 : d ∉ t := fun ht => hd (by simp [ht])
    simp [contribFrom, h1, ih (r + 1) d h2]

theorem lookupScore_addHitsFrom (hs : List ℕ) :
    ∀ (r : ℕ) (sc : List (ℕ × ℚ)) (j : ℕ),
    lookupScore (addHitsFrom r sc hs) j =
      if j ∈ hs then some ((lookupScore sc j).getD 0 + contribFrom r hs j)
      else lookupScore sc j := by
  induction hs with
  | nil => intro r sc j; simp [addHitsFrom]
  | cons h t ih =>
    intro r sc j
    rw [show addHitsFrom r sc (h :: t)
        = addHitsFrom (r + 1) (updateScore sc h (mkRat 1 (rrf_k + r + 1))) t
      from rfl]
    rw [ih]
    by_cases hj : j = h
    · subst hj
      by_cases hjt : j ∈ t
      · rw [if_pos hjt, if_pos (List.mem_cons_self j t)]
        rw [lookupScore_update_self]
        simp only [Option.getD_some]
        rw [show contribFrom r (j :: t) j
            = (1 : ℚ) / ((rrf_k + r + 1 : ℕ) : ℚ) + contribFrom (r + 1) t j
          by simp [contribFrom]]
        rw [mkRat_one_div]
        ring_nf
      · rw [if_neg hjt, if_pos (List.mem_cons_self j t)]
        rw [lookupScore_update_self]
        rw [show contribFrom r (j :: t) j
            = (1 : ℚ) / ((rrf_k + r + 1 : ℕ) : ℚ) + contribFrom (r + 1) t j
          by simp [contribFrom]]
        rw [contribFrom_of_not_mem t (r + 1) j hjt, mkRat_one_div]
        ring_nf
    · have hup := lookupScore_update_ne sc h (mkRat 1 (rrf_k + r + 1)) j hj
      by_cases hjt : j ∈ t
      · rw [if_pos hjt, if_pos (List.mem_cons_of_mem h hjt), hup]
        rw [show contribFrom r (h :: t) j = 0 + contribFrom (r + 1) t j
          by simp [contribFrom, Ne.symm hj]]
        ring_nf
      · rw [if_neg hjt, if_neg (by simp [hj, hjt]), hup]

theorem mem_keys_addHitsFrom (hs : List ℕ) :
    ∀ (r : ℕ) (sc : List (ℕ × ℚ)) (j : ℕ),
    j ∈ keys (addHitsFrom r sc hs) ↔ j ∈ keys sc ∨ j ∈ hs := by
  induction hs with
  | nil => intro r sc j; simp [addHitsFrom]
  | cons h t ih =>
    intro r sc j
    rw [show addHitsFrom r sc (h :: t)
        = addHitsFrom (r + 1) (updateScore sc h (mkRat 1 (rrf_k + r + 1))) t
      from rfl]
    rw [ih, keys_updateScore]
    split
    · rename_i hm
      constructor
      · rintro (hk | ht)
        · exact Or.inl hk
        · exact Or.inr (List.mem_cons_of_mem h ht)
      · rintro (hk | ht)
        · exact Or.inl hk
        · rcases List.mem_cons.mp ht with rfl | ht
          · exact Or.inl hm
          · exact Or.inr ht
    · constructor
      · rintro (hk | ht)
        · rcases List.mem_append.mp hk with hk | hk
          · exact Or.inl hk
          · simp only [List.mem_singleton] at hk
            exact Or.inr (by simp [hk])
        · exact Or.inr (List.mem_cons_of_mem h ht)
      · rintro (hk | ht)
        · exact Or.inl (List.mem_append.mpr (Or.inl hk))
        · rcases List.mem_cons.mp ht with rfl | ht
          · exact Or.inl (List.mem_append.mpr (Or.inr (by simp)))
          · exact Or.inr ht

theorem keys_nodup_updateScore (sc : List (ℕ × ℚ)) (d : ℕ) (c : ℚ)
    (h : (keys sc).Nodup) : (keys (updateScore sc d c)).Nodup := by
  rw [keys_updateScore]
  split
  · exact h
  · rename_i hm
    rw [List.nodup_append]
    refine ⟨h, List.nodup_singleton d, ?_⟩
    intro a ha hd
    rw [List.mem_singleton] at hd
    exact hm (hd ▸ ha)

theorem keys_nodup_addHitsFrom (hs : List ℕ) :
    ∀ (r : ℕ) (sc : List (ℕ × ℚ)), (keys sc).Nodup →
      (keys (addHitsFrom r sc hs)).Nodup := by
  induction hs with
  | nil => intro r sc h; exact h
  | cons x t ih =>
    intro r sc hnd
    exact ih (r + 1) _ (keys_nodup_updateScore sc x _ hnd)

theorem keys_rrf_nodup (bm25_hits knn_hits : List ℕ) :
    (keys (rrf_scores bm25_hits knn_hits)).Nodup :=
  keys_nodup_addHitsFrom knn_hits 0 _
    (keys_nodup_addHitsFrom bm25_hits 0 [] List.nodup_nil)

theorem mem_firstSeen (l : List ℕ) (a : ℕ) : a ∈ firstSeen l ↔ a ∈ l := by
  induction l with
  | nil => simp [firstSeen]
  | cons x xs ih =>
    by_cases hax : a = x
    · simp [firstSeen, hax]
    · simp [firstSeen, List.mem_filter, hax, ih]

theorem firstSeen_append (xs ys : List ℕ) :
    firstSeen (xs ++ ys)
      = firstSeen xs ++ (firstSeen ys).filter (fun y => decide (y ∉ xs)) := by
  induction xs with
  | nil =>
    show firstSeen ys = (firstSeen ys).filter _
    rw [List.filter_congr (q := fun _ => true) (fun a _ => by simp),
      List.filter_true]
  | cons x xs ih =>
    show x :: (firstSeen (xs ++ ys)).filter (fun y => decide (y ≠ x))
        = x :: (firstSeen xs).filter (fun y => decide (y ≠ x))
            ++ (firstSeen ys).filter (fun y => decide (y ∉ x :: xs))
    rw [ih, List.filter_append, List.filter_filter, List.cons_append]
    congr 2
    apply List.filter_congr
    intro a _
    by_cases h1 : a = x <;> by_cases h2 : a ∈ xs <;> simp [h1, h2]

theorem keys_addHitsFrom_eq (hs : List ℕ) :
    ∀ (r : ℕ) (sc : List (ℕ × ℚ)),
    keys (addHitsFrom r sc hs)
      = keys sc ++ (firstSeen hs).filter (fun y => decide (y ∉ keys sc)) := by
  induction hs with
  | nil => intro r sc; simp [addHitsFrom, firstSeen]
  | cons x t ih =>
    intro r sc
    rw [show addHitsFrom r sc (x :: t)
        = addHitsFrom (r + 1) (updateScore sc x (mkRat 1 (rrf_k + r + 1)))
            t from rfl]
    rw [ih, keys_updateScore]
    by_cases hm : x ∈ keys sc
    · rw [if_pos hm]
      show _ = keys sc ++
          (x :: (firstSeen t).filter (fun y => decide (y ≠ x))).filter
            (fun y => decide (y ∉ keys sc))
      rw [List.filter_cons]
      have hx : (decide (x ∉ keys sc)) = false := by simp [hm]
      rw [hx]
      simp only [Bool.false_eq_true, if_false, List.filter_filter]
      congr 1
      apply List.filter_congr
      intro a _
      by_cases h1 : a = x <;> by_cases h2 : a ∈ keys sc <;>
        simp [h1, h2, hm]
    · rw [if_neg hm]
      show keys sc ++ [x]
            ++ (firstSeen t).filter (fun y => decide (y ∉ keys sc ++ [x]))
          = keys sc ++
            (x :: (firstSeen t).filter (fun y => decide (y ≠ x))).filter
              (fun y => decide (y ∉ keys sc))
      rw [List.filter_cons]
      have hx : (decide (x ∉ keys sc)) = true := by simp [hm]
      rw [hx]
      simp only [if_true, List.filter_filter, List.append_assoc,
        List.singleton_append]
      congr 2
      apply List.filter_congr
      intro a _
      by_cases h1 : a = x <;> by_cases h2 : a ∈ keys sc <;>
        simp [h1, h2, hm]

theorem keys_rrf_scores (bm25_hits knn_hits : List ℕ) :
    keys (rrf_scores bm25_hits knn_hits)
      = firstSeen (bm25_hits ++ knn_hits) := by
  have h0 : keys (addHitsFrom 0 ([] : List (ℕ × ℚ)) bm25_hits)
      = firstSeen bm25_hits := by
    rw [keys_addHitsFrom_eq]
    show [] ++ _ = _
    rw [List.nil_append]
    rw [List.filter_congr (q := fun _ => true) (fun a _ => by simp [keys]),
      List.filter_true]
  unfold rrf_scores
  rw [keys_addHitsFrom_eq, h0, firstSeen_append]
  congr 1
  apply List.filter_congr
  intro a _
  rw [decide_eq_decide]
  exact not_congr (mem_firstSeen bm25_hits a)

theorem lookupScore_some_mem (sc : List (ℕ × ℚ)) (j : ℕ) (v : ℚ)
    (h : lookupScore sc j = some v) : (j, v) ∈ sc := by
  induction sc with
  | nil => simp [lookupScore] at h
  | cons p ps ih =>
    by_cases hp : p.1 = j
    · rw [lookupScore, if_pos hp] at h
      have hv : v = p.2 := by injection h with h'; exact h'.symm
      subst hv
      subst hp
      exact List.mem_cons.mpr (Or.inl rfl)
    · rw [lookupScore, if_neg hp] at h
      exact List.mem_cons_of_mem p (ih h)

theorem pair_sublist_of_keys (sc : List (ℕ × ℚ)) :
    ∀ (i j : ℕ) (si sj : ℚ),
      (keys sc).Nodup → [i, j].Sublist (keys sc) →
      lookupScore sc i = some si → lookupScore sc j = some sj →
      [(i, si), (j, sj)].Sublist sc := by
  induction sc with
  | nil =>
    intro i j si sj _ hij _ _
    exact absurd (List.sublist_nil.mp hij) (by simp)
  | cons p ps ih =>
    intro i j si sj hnd hij hi hj
    rw [keys_cons] at hij hnd
    obtain ⟨hp1, hnd2⟩ := List.nodup_cons.mp hnd
    cases hij with
    | cons _ h' =>
      have hiK : i ∈ keys ps := h'.subset (by simp)
      have hjK : j ∈ keys ps := h'.subset (by simp)
      have hip : p.1 ≠ i := fun he => hp1 (he ▸ hiK)
      have hjp : p.1 ≠ j := fun he => hp1 (he ▸ hjK)
      rw [lookupScore, if_neg hip] at hi
      rw [lookupScore, if_neg hjp] at hj
      exact (ih i j si sj hnd2 h' hi hj).cons p
    | cons₂ _ h' =>
      rw [lookupScore, if_pos rfl] at hi
      have hsi : si = p.2 := by injection hi with h''; exact h''.symm
      have hjK : j ∈ keys ps := h'.subset (by simp)
      have hjp : p.1 ≠ j := fun he => hp1 (he ▸ hjK)
      rw [lookupScore, if_neg hjp] at hj
      have hmem : [(j, sj)].Sublist ps :=
        List.singleton_sublist.mpr (lookupScore_some_mem ps j sj hj)
      subst hsi
      exact hmem.cons₂ (p.1, p.2)

theorem pair_sublist_take (m : List ℕ) :
    m.Nodup →
    ∀ (n : ℕ) (i j : ℕ), [i, j].Sublist m → j ∈ m.take n → [i, j].Sublist (m.take n) := by
  induction m with
  | nil => intro _ n i j _ hj; simp at hj
  | cons a m' ih =>
    intro hnd n i j hij hj
    obtain ⟨ha, hnd'⟩ := List.nodup_cons.mp hnd
    cases n with
    | zero => simp at hj
    | succ n' =>
      rw [List.take_succ_cons] at hj ⊢
      cases hij with
      | cons _ h' =>
        have hjm : j ∈ m' := h'.subset (by simp)
        have hja : j ≠ a := fun he => ha (he ▸ hjm)
        have hj' : j ∈ m'.take n' := by
          rcases List.mem_cons.mp hj with he | h2
          · exact absurd he hja
          · exact h2
        exact (ih hnd' n' i j h' hj').cons a
      | cons₂ _ h' =>
        have hjm : j ∈ m' := h'.subset (by simp)
        have hja : j ≠ a := fun he => ha (he ▸ hjm)
        have hj' : j ∈ m'.take n' := by
          rcases List.mem_cons.mp hj with he | h2
          · exact absurd he hja
          · exact h2
        exact List.Sublist.cons₂ a (List.singleton_sublist.mpr hj')

/-! ### Claims C1–C4: reciprocal-rank fusion -/

/-- C1: for every pair of ranked hit lists, the fused score of each
fragment identifier equals the sum over both lists of `1/(60 + r + 1)`
over the 0-based ranks `r` at which it appears; an identifier present in
only one list receives exactly that list's contribution (the other
contribution is `0`, no penalty term, and an identifier in neither list
gets no entry at all — no default floor); and the fused output is sorted
descending by this total. -/
theorem C1_rrf_score_and_order (bm25_hits knn_hits : List ℕ) (top_k d : ℕ) :
    lookupScore (rrf_scores bm25_hits knn_hits) d =
      (if d ∈ bm25_hits ∨ d ∈ knn_hits
        then some (contribution bm25_hits d + contribution knn_hits d)
        else none)
    ∧ (hybrid_search_fused bm25_hits knn_hits top_k).Sorted
        (fun a b => b.2 ≤ a.2) := by
  constructor
  · unfold rrf_scores contribution
    rw [lookupScore_addHitsFrom, lookupScore_addHitsFrom]
    by_cases hb : d ∈ bm25_hits <;> by_cases hk : d ∈ knn_hits
    · rw [if_pos hk, if_pos hb, if_pos (Or.inl hb)]
      simp [lookupScore]
    · rw [if_neg hk, if_pos hb, if_pos (Or.inl hb),
        contribFrom_of_not_mem knn_hits 0 d hk]
      simp [lookupScore]
    · rw [if_pos hk, if_neg hb, if_pos (Or.inr hk),
        contribFrom_of_not_mem bm25_hits 0 d hb]
      simp [lookupScore]
    · rw [if_neg hk, if_neg hb, if_neg (by simp [hb, hk])]
      simp [lookupScore]
  · exact List.Pairwise.sublist (List.take_sublist _ _)
      (List.sorted_insertionSort (descRel (Prod.snd : ℕ × ℚ → ℚ))
        (rrf_scores bm25_hits knn_hits))

/-- C2 counterexample: in the keyword list `bmTie` and vector list
`knnTie`, fragment `0` occurs only in the keyword list (rank 0, score
`1/61`), fragment `1` occurs in BOTH lists (rank 61 in each, score
`1/122 + 1/122 = 1/61`), the fused scores tie, and yet the fused output
places the single-list fragment `0` before the both-lists fragment `1`:
the code breaks ties only by dict insertion order and has no
presence-in-both-lists preference. -/
theorem C2_counterexample_both_lists_tie :
    lookupScore (rrf_scores bmTie knnTie) 0
        = lookupScore (rrf_scores bmTie knnTie) 1
    ∧ (1 ∈ bmTie ∧ 1 ∈ knnTie)
    ∧ (0 ∈ bmTie ∧ 0 ∉ knnTie)
    ∧ (fusedIds bmTie knnTie 62).take 2 = [0, 1] := by decide

/-- C2 (amended): when two fragments have equal fused scores, the fused
output orders them stably by first-seen position — first occurrence
scanning the keyword list and then the vector list — with no preference
for presence in both lists; the output is the truncation to `top_k` of
this stable descending order. -/
theorem C2_tie_break_first_seen (bm25_hits knn_hits : List ℕ)
    (top_k i j : ℕ)
    (hfs : [i, j].Sublist (firstSeen (bm25_hits ++ knn_hits)))
    (heq : lookupScore (rrf_scores bm25_hits knn_hits) i
         = lookupScore (rrf_scores bm25_hits knn_hits) j)
    (hj : j ∈ fusedIds bm25_hits knn_hits top_k) :
    [i, j].Sublist (fusedIds bm25_hits knn_hits top_k) := by
  have hnd : (keys (rrf_scores bm25_hits knn_hits)).Nodup :=
    keys_rrf_nodup bm25_hits knn_hits
  have hsub : [i, j].Sublist (keys (rrf_scores bm25_hits knn_hits)) := by
    rw [keys_rrf_scores]; exact hfs
  have hiK : i ∈ keys (rrf_scores bm25_hits knn_hits) := hsub.subset (by simp)
  obtain ⟨si, hsi⟩ :
      ∃ v, lookupScore (rrf_scores bm25_hits knn_hits) i = some v := by
    rcases ho : lookupScore (rrf_scores bm25_hits knn_hits) i with _ | v
    · exact absurd ((lookupScore_eq_none _ _).mp ho) (by simp [hiK])
    · exact ⟨v, rfl⟩
  have hsj : lookupScore (rrf_scores bm25_hits knn_hits) j = some si := by
    rw [← heq]; exact hsi
  have hpair : [(i, si), (j, si)].Sublist (rrf_scores bm25_hits knn_hits) :=
    pair_sublist_of_keys _ i j si si hnd hsub hsi hsj
  have hstable : [(i, si), (j, si)].Sublist (ranked_list bm25_hits knn_hits) :=
    List.pair_sublist_insertionSort (le_refl si) hpair
  have hids : [i, j].Sublist ((ranked_list bm25_hits knn_hits).map Prod.fst) := by
    simpa using hstable.map Prod.fst
  have hperm : ((ranked_list bm25_hits knn_hits).map Prod.fst).Perm
      (keys (rrf_scores bm25_hits knn_hits)) :=
    (List.perm_insertionSort _ _).map Prod.fst
  have hnd2 : ((ranked_list bm25_hits knn_hits).map Prod.fst).Nodup :=
    hperm.nodup_iff.mpr hnd
  have hj' : j ∈ ((ranked_list bm25_hits knn_hits).map Prod.fst).take top_k := by
    rw [fusedIds, hybrid_search_fused, List.map_take] at hj
    exact hj
  have hres := pair_sublist_take _ hnd2 top_k i j hids hj'
  rw [fusedIds, hybrid_search_fused, List.map_take]
  exact hres

/-- C2 witness: keyword list `[1]`, vector list `[2]`, both fragments
score `1/61`; the fused output keeps `1` before `2`. -/
theorem C2_tie_break_first_seen_witness :
    [1, 2].Sublist (fusedIds [1] [2] 10) :=
  C2_tie_break_first_seen [1] [2] 10 1 2 (by decide) (by decide) (by decide)

/-- C3 counterexample: identifier `362` is present in both input lists
(rank 63 in each, fused score `2/124 = 1/62`), but 64 other identifiers
score strictly higher, so truncation to `top_k = 64` (the lists' own
length) removes it: the fused output contains it zero times, not exactly
once. -/
theorem C3_counterexample_truncation_drop :
    (362 ∈ bmDrop ∧ 362 ∈ knnDrop)
    ∧ (fusedIds bmDrop knnDrop 64).count 362 = 0 := by decide

/-- C3 (amended): every fragment identifier occurs at most once in the
fused output (identifiers appearing in both lists are merged, never
duplicated), and exactly once whenever the output is not truncated,
i.e. when the number of distinct scored identifiers is at most `top_k`.
(Truncation can remove a shared identifier entirely, so the unqualified
"exactly once" fails.) -/
theorem C3_merged_never_duplicated (bm25_hits knn_hits : List ℕ)
    (top_k d : ℕ) :
    (fusedIds bm25_hits knn_hits top_k).count d ≤ 1
    ∧ ((rrf_scores bm25_hits knn_hits).length ≤ top_k →
        d ∈ bm25_hits → d ∈ knn_hits →
        (fusedIds bm25_hits knn_hits top_k).count d = 1) := by
  have hnd : (keys (rrf_scores bm25_hits knn_hits)).Nodup :=
    keys_rrf_nodup bm25_hits knn_hits
  have hperm : ((ranked_list bm25_hits knn_hits).map Prod.fst).Perm
      (keys (rrf_scores bm25_hits knn_hits)) :=
    (List.perm_insertionSort _ _).map Prod.fst
  have hnd2 : ((ranked_list bm25_hits knn_hits).map Prod.fst).Nodup :=
    hperm.nodup_iff.mpr hnd
  have hids : fusedIds bm25_hits knn_hits top_k
      = ((ranked_list bm25_hits knn_hits).map Prod.fst).take top_k := by
    rw [fusedIds, hybrid_search_fused, List.map_take]
  have hnd3 : (fusedIds bm25_hits knn_hits top_k).Nodup := by
    rw [hids]
    exact List.Nodup.sublist (List.take_sublist _ _) hnd2
  refine ⟨List.nodup_iff_count_le_one.mp hnd3 d, ?_⟩
  intro hlen hb _
  have hmemK : d ∈ keys (rrf_scores bm25_hits knn_hits) := by
    rw [keys_rrf_scores, mem_firstSeen]
    exact List.mem_append.mpr (Or.inl hb)
  have hlen2 : ((ranked_list bm25_hits knn_hits).map Prod.fst).length
      ≤ top_k := by
    rw [List.length_map]
    calc (ranked_list bm25_hits knn_hits).length
        = (rrf_scores bm25_hits knn_hits).length :=
          (List.perm_insertionSort _ _).length_eq
      _ ≤ top_k := hlen
  rw [hids, List.take_of_length_le hlen2]
  exact List.count_eq_one_of_mem hnd2 (hperm.mem_iff.mpr hmemK)

/-- C3 witness: keyword list `[1, 2]`, vector list `[2]`, `top_k = 5`:
the shared identifier `2` occurs exactly once in the fused output. -/
theorem C3_merged_never_duplicated_witness :
    (fusedIds [1, 2] [2] 5).count 2 ≤ 1
    ∧ (fusedIds [1, 2] [2] 5).count 2 = 1 :=
  ⟨(C3_merged_never_duplicated [1, 2] [2] 5 2).1,
   (C3_merged_never_duplicated [1, 2] [2] 5 2).2
     (by decide) (by decide) (by decide)⟩

/-- C4 counterexample: with keyword list `[f1, f2] = [1, 2]` and vector
list `[f2, f3] = [2, 3]`, the fused score of `f2` is NOT
`1/61 + 1/60` (it is `1/62 + 1/61 = 123/3782`), and `f1` and `f3` do
NOT tie (`1/61 ≠ 1/62`): the claimed per-fragment scores are wrong. -/
theorem C4_counterexample_scenario_scores :
    lookupScore (rrf_scores [1, 2] [2, 3]) 2 ≠ some (1 / 61 + 1 / 60)
    ∧ lookupScore (rrf_scores [1, 2] [2, 3]) 1
        ≠ lookupScore (rrf_scores [1, 2] [2, 3]) 3 := by
  constructor
  · have h : lookupScore (rrf_scores [1, 2] [2, 3]) 2
        = some (mkRat 123 3782) := by decide
    rw [h]
    intro hc
    rw [Option.some.injEq, Rat.mkRat_eq_div] at hc
    norm_num at hc
  · decide

/-- C4 (amended): Scenario A yields the fused order `f2, f1, f3`
(`[2, 1, 3]`), with `f2 = 1/62 + 1/61` (contributions for keyword
rank 1 and vector rank 0), `f1 = 1/61`, `f3 = 1/62`; `f1` precedes `f3`
because its score is strictly greater — no tie-break is involved. -/
theorem C4_scenario_a_corrected :
    fusedIds [1, 2] [2, 3] 10 = [2, 1, 3]
    ∧ lookupScore (rrf_scores [1, 2] [2, 3]) 2 = some (1 / 62 + 1 / 61)
    ∧ lookupScore (rrf_scores [1, 2] [2, 3]) 1 = some (1 / 61)
    ∧ lookupScore (rrf_scores [1, 2] [2, 3]) 3 = some (1 / 62)
    ∧ (1 / 62 : ℚ) < 1 / 61 := by
  refine ⟨by decide, ?_, ?_, ?_, by norm_num⟩
  · have h : lookupScore (rrf_scores [1, 2] [2, 3]) 2
        = some (mkRat 123 3782) := by decide
    rw [h, Rat.mkRat_eq_div]
    norm_num
  · have h : lookupScore (rrf_scores [1, 2] [2, 3]) 1
        = some (mkRat 1 61) := by decide
    rw [h, mkRat_one_div]
    norm_num
  · have h : lookupScore (rrf_scores [1, 2] [2, 3]) 3
        = some (mkRat 1 62) := by decide
    rw [h, mkRat_one_div]
    norm_num

/-! ### Context-assembly lemmas and claims C8, C9 -/

theorem buildLoop_nil (m i total : ℕ) : buildLoop m i total [] = ([], []) := rfl

theorem buildLoop_cons (m i total : ℕ) (c : Chunk) (cs : List Chunk) :
    buildLoop m i total (c :: cs) =
      if m < total + tokenCount c.content then ([], [])
      else
        (mkPart i c :: (buildLoop m (i + 1) (total + tokenCount c.content) cs).1,
         mkSource c :: (buildLoop m (i + 1) (total + tokenCount c.content) cs).2) :=
  rfl

theorem sumTokens_nil : sumTokens [] = 0 := rfl

theorem sumTokens_cons (c : Chunk) (cs : List Chunk) :
    sumTokens (c :: cs) = tokenCount c.content + sumTokens cs := rfl

theorem buildLoop_spec (max_context_tokens : ℕ) (chunks : List Chunk) :
    ∀ (i total : ℕ), total ≤ max_context_tokens →
    ∃ n, n ≤ chunks.length
      ∧ (buildLoop max_context_tokens i total chunks).1
          = (List.enumFrom i (chunks.take n)).map (fun p => mkPart p.1 p.2)
      ∧ (buildLoop max_context_tokens i total chunks).2
          = (chunks.take n).map mkSource
      ∧ total + sumTokens (chunks.take n) ≤ max_context_tokens
      ∧ (n = chunks.length
          ∨ max_context_tokens < total + sumTokens (chunks.take (n + 1))) := by
  induction chunks with
  | nil =>
    intro i total htot
    refine ⟨0, Nat.le_refl 0, rfl, rfl, ?_, Or.inl rfl⟩
    simpa [sumTokens_nil] using htot
  | cons c cs ih =>
    intro i total htot
    rw [buildLoop_cons]
    by_cases hovf : max_context_tokens < total + tokenCount c.content
    · rw [if_pos hovf]
      refine ⟨0, Nat.zero_le _, rfl, rfl, by simpa [sumTokens_nil] using htot,
        Or.inr ?_⟩
      rw [List.take_succ_cons, List.take_zero, sumTokens_cons, sumTokens_nil]
      omega
    · rw [if_neg hovf]
      have hle : total + tokenCount c.content ≤ max_context_tokens := by omega
      obtain ⟨n, hn, h1, h2, h3, h4⟩ := ih (i + 1) (total + tokenCount c.content) hle
      refine ⟨n + 1, by simpa using Nat.succ_le_succ hn, ?_, ?_, ?_, ?_⟩
      · rw [List.take_succ_cons]
        rw [show List.enumFrom i (c :: cs.take n)
            = (i, c) :: List.enumFrom (i + 1) (cs.take n) from rfl]
        rw [List.map_cons]
        exact congrArg (mkPart i c :: ·) h1
      · rw [List.take_succ_cons, List.map_cons]
        exact congrArg (mkSource c :: ·) h2
      · rw [List.take_succ_cons, sumTokens_cons]
        omega
      · rcases h4 with h4 | h4
        · exact Or.inl (by rw [h4, List.length_cons])
        · refine Or.inr ?_
          rw [List.take_succ_cons, sumTokens_cons]
          omega

theorem build_snd (m : ℕ) (chunks : List Chunk) :
    (build m chunks).2 = (buildLoop m 1 0 chunks).2 := by
  cases chunks with
  | nil => rfl
  | cons c cs => rfl

theorem build_fst (m : ℕ) (chunks : List Chunk) :
    (build m chunks).1 = joinSep (chars "\n\n---\n\n") (renderedBlocks m chunks) := by
  cases chunks with
  | nil => rfl
  | cons c cs => rfl

/-- C8 counterexample: with a budget of 3 tokens and a single candidate
of exactly 3 content tokens, the candidate is admitted (its accounted
cost fits the budget), but the assembled context string — which also
contains the `[Source 1] (...)` header — has 13 whitespace tokens,
exceeding the budget: the budget bounds only the candidates' own text,
not the rendered context. -/
theorem C8_counterexample_rendered_header_tokens :
    sumTokens [overflowChunk] ≤ 3
    ∧ (build 3 [overflowChunk]).2.length = 1
    ∧ 3 < tokenCount (build 3 [overflowChunk]).1 := by decide

/-- C8 (amended): for every candidate list and every budget, the sum of
the whitespace-token counts of the included candidates' texts never
exceeds the budget (equality allowed; the rendered source markers and
block delimiters are not counted); the included candidates are an
initial prefix of the ranked input, iterated best-first, and assembly
stops at the first candidate whose addition would exceed the remaining
budget — it is never skipped in favour of a smaller later one. -/
theorem C8_budget_stop_on_first_overflow (max_context_tokens : ℕ)
    (chunks : List Chunk) :
    ∃ n, n ≤ chunks.length
      ∧ renderedBlocks max_context_tokens chunks
          = (List.enumFrom 1 (chunks.take n)).map (fun p => mkPart p.1 p.2)
      ∧ (build max_context_tokens chunks).2 = (chunks.take n).map mkSource
      ∧ sumTokens (chunks.take n) ≤ max_context_tokens
      ∧ (n = chunks.length
          ∨ max_context_tokens < sumTokens (chunks.take (n + 1))) := by
  obtain ⟨n, hn, h1, h2, h3, h4⟩ :=
    buildLoop_spec max_context_tokens chunks 1 0 (Nat.zero_le _)
  refine ⟨n, hn, h1, ?_, by simpa using h3, ?_⟩
  · rw [build_snd]; exact h2
  · rcases h4 with h4 | h4
    · exact Or.inl h4
    · exact Or.inr (by simpa using h4)

/-- C9: for every input to the context assembler, including the empty
one, the number of citation records equals the number of rendered
context blocks (1:1), and the `m`-th citation (1-based ordinal `m + 1`)
describes exactly the chunk rendered in the `m`-th block, whose text
embeds the marker `[Source (m+1)]` (it is `mkPart (m+1)` of that chunk). -/
theorem C9_citation_block_parity (max_context_tokens : ℕ)
    (chunks : List Chunk) :
    (build max_context_tokens chunks).2.length
        = (renderedBlocks max_context_tokens chunks).length
    ∧ ∀ m, m < (renderedBlocks max_context_tokens chunks).length →
        ∃ c : Chunk,
          (renderedBlocks max_context_tokens chunks)[m]?
              = some (mkPart (m + 1) c)
          ∧ (build max_context_tokens chunks).2[m]? = some (mkSource c) := by
  obtain ⟨n, hn, h1, h2, h3, h4⟩ :=
    buildLoop_spec max_context_tokens chunks 1 0 (Nat.zero_le _)
  have hb2 : (build max_context_tokens chunks).2
      = (chunks.take n).map mkSource := by
    rw [build_snd]; exact h2
  have hb1 : renderedBlocks max_context_tokens chunks
      = (List.enumFrom 1 (chunks.take n)).map (fun p => mkPart p.1 p.2) := h1
  constructor
  · rw [hb1, hb2, List.length_map, List.length_map, List.enumFrom_length]
  · intro m hm
    rw [hb1, List.length_map, List.enumFrom_length] at hm
    obtain ⟨c, hc⟩ : ∃ c, (chunks.take n)[m]? = some c := by
      rcases h : (chunks.take n)[m]? with _ | c
      · exact absurd (List.getElem?_eq_none_iff.mp h) (by omega)
      · exact ⟨c, rfl⟩
    refine ⟨c, ?_, ?_⟩
    · rw [hb1, List.getElem?_map, List.getElem?_enumFrom, hc]
      simp [Nat.add_comm]
    · rw [hb2, List.getElem?_map, hc]
      rfl

/-- C9 witness: a single two-token chunk under a budget of 10 renders
one block with marker ordinal 1 and one matching citation. -/
theorem C9_citation_block_parity_witness :
    (build 10 [⟨chars "a b", none, none, none, none, none⟩]).2.length
        = (renderedBlocks 10 [⟨chars "a b", none, none, none, none, none⟩]).length
    ∧ ∃ c : Chunk,
        (renderedBlocks 10 [⟨chars "a b", none, none, none, none, none⟩])[0]?
            = some (mkPart 1 c)
        ∧ (build 10 [⟨chars "a b", none, none, none, none, none⟩]).2[0]?
            = some (mkSource c) :=
  ⟨(C9_citation_block_parity 10 _).1,
   (C9_citation_block_parity 10 _).2 0 (by decide)⟩

/-! ### Claims C5–C7: error propagation; claim C10: filters -/

theorem except_bind_ok {α β : Type} (x : α) (f : α → Except String β) :
    (Except.ok x >>= f) = f x := rfl

theorem except_bind_error {α β : Type} (e : String)
    (f : α → Except String β) :
    ((Except.error e : Except String α) >>= f) = Except.error e := rfl

/-- C5 counterexample: with a search engine returning one candidate and
a failing cross-encoder, `retrieve` does not fall back to fusion order:
the whole request fails with the model's error instead of returning a
result truncated to `top_n`. -/
theorem C5_counterexample_no_rerank_fallback :
    retrieve (fun _ _ => Except.ok [{ content := chars "t" }]) 5 3000
      (fun _ => Except.error "model down") (chars "q") 10
      = Except.error "model down" := rfl

/-- C5 (amended): if the relevance-model (cross-encoder) invocation
fails on a non-empty candidate list, the error propagates out of
`ReRanker.rerank` (which has no exception handling) and
`RetrievalPipeline.retrieve` fails the whole request with that error;
there is no fallback to fusion order. -/
theorem C5_rerank_failure_propagates
    (search_engine : Str → ℕ → Except String (List Chunk))
    (top_n max_context_tokens top_k : ℕ)
    (predict : List (Str × Str) → Except String (List ℚ))
    (query : Str) (chunks : List Chunk) (e : String)
    (hs : search_engine query top_k = Except.ok chunks)
    (hne : chunks.isEmpty = false)
    (hp : predict (chunks.map fun r => (query, r.content))
        = Except.error e) :
    retrieve search_engine top_n max_context_tokens predict query top_k
      = Except.error e := by
  unfold retrieve
  rw [hs, except_bind_ok]
  have hr : rerank top_n predict query chunks = Except.error e := by
    unfold rerank
    rw [hne, hp]
    rfl
  rw [hr, except_bind_error]

/-- C5 witness: a concrete failing cross-encoder call makes `retrieve`
fail with the model's error. -/
theorem C5_rerank_failure_propagates_witness :
    retrieve (fun _ _ => Except.ok [{ content := chars "passage" }]) 4 2000
      (fun _ => Except.error "boom") (chars "question") 8
      = Except.error "boom" :=
  C5_rerank_failure_propagates
    (fun _ _ => Except.ok [{ content := chars "passage" }]) 4 2000 8
    (fun _ => Except.error "boom") (chars "question")
    [{ content := chars "passage" }] "boom" rfl rfl rfl

/-- C6 counterexample: when exactly one backend sub-query fails (either
the keyword or the vector one), `hybrid_search` does not treat the
failed side as an empty ranked list — the exception propagates and the
whole call fails, so it does not return a result. -/
theorem C6_counterexample_partial_failure :
    (hybrid_search_run (Except.error "bm25 down") (Except.ok [7]) 10).isOk
        = false
    ∧ (hybrid_search_run (Except.ok [7]) (Except.error "knn down") 10).isOk
        = false :=
  ⟨rfl, rfl⟩

/-- C6 (amended): failure of either backend sub-query (and a fortiori of
both) propagates as a hard failure of the whole `hybrid_search` call;
the failed side is never degraded to an empty ranked list. -/
theorem C6_subquery_failure_propagates (e : String)
    (knn_result : Except String (List ℕ)) (bm25_hits : List ℕ)
    (top_k : ℕ) :
    hybrid_search_run (Except.error e) knn_result top_k = Except.error e
    ∧ hybrid_search_run (Except.ok bm25_hits) (Except.error e) top_k
        = Except.error e :=
  ⟨rfl, rfl⟩

/-- C7 counterexample: with a failing embedding provider, `embed_text`
returns a zero vector instead of raising, and the retrieval proceeds:
`engine_search` succeeds against a working backend.  The embedding
failure is silently degraded, not propagated as a hard failure. -/
theorem C7_counterexample_silent_zero_vector :
    embed_text 3 (fun _ => Except.error "ollama down") (chars "hello")
        = [0, 0, 0]
    ∧ (engine_search 3 (fun _ => Except.error "ollama down")
        (fun _ => Except.ok [(1, 1)]) (chars "hello")).isOk = true := by
  constructor
  · decide
  · rfl

/-- C7 (amended): when the embedding provider fails (on a non-empty,
not whitespace-only query), `embed_text` swallows the error and returns
a zero vector of the configured dimension, and `HybridSearchEngine`
proceeds by handing that zero vector to the backend — a silent degraded
mode rather than a hard `EmbeddingUnavailable` failure of the whole
retrieval. -/
theorem C7_embedding_failure_degrades (dimension : ℕ)
    (provider : Str → Except String (List ℚ))
    (backend : List ℚ → Except String (List (ℕ × ℚ)))
    (query : Str) (e : String)
    (h1 : query.isEmpty = false) (h2 : pyStrip query ≠ [])
    (hp : provider
        (if 32000 < query.length then query.take 32000 else query)
        = Except.error e) :
    embed_text dimension provider query = List.replicate dimension 0
    ∧ engine_search dimension provider backend query
        = backend (List.replicate dimension 0) := by
  have hemb : embed_text dimension provider query
      = List.replicate dimension 0 := by
    unfold embed_text
    rw [if_neg (by simp [h1, h2]), hp]
  exact ⟨hemb, by unfold engine_search; rw [hemb]⟩

/-- C7 witness: a concrete failing provider yields the zero vector and
a successful backend call. -/
theorem C7_embedding_failure_degrades_witness :
    embed_text 2 (fun _ => Except.error "timeout") (chars "hi")
        = List.replicate 2 0
    ∧ engine_search 2 (fun _ => Except.error "timeout")
        (fun _v => Except.ok [(1, 1)]) (chars "hi")
        = (fun _v => Except.ok [(1, 1)]) (List.replicate 2 0) :=
  C7_embedding_failure_degrades 2 (fun _ => Except.error "timeout")
    (fun _v => Except.ok [(1, 1)]) (chars "hi") "timeout"
    rfl (by decide) rfl

/-- C10: calling the search engine with `date_filter_days = 0` applies
no recency filter at all (the backend receives exactly the clauses it
would receive for `None`), and an empty categories list likewise adds no
category clause: zero and empty constraints are treated as absent, not
as "published within the last 0 days" or "matches no category". -/
theorem C10_zero_and_empty_filters_absent (now : ℤ)
    (categories : Option (List Str)) (date_filter_days : Option ℤ) :
    clauses_for now categories (some 0) = clauses_for now categories none
    ∧ clauses_for now (some []) date_filter_days
        = clauses_for now none date_filter_days :=
  ⟨rfl, rfl⟩


end ArxivRag
